import Mathlib

set_option maxRecDepth 8000

/-!
# Verification of the EdgeUtilities process-monitoring core

Shallow embedding of the process discovery / grouping / live-correlation
engine of the EdgeUtilities `ProcessesTab` (src/src/tabs/ProcessesTab.tsx),
together with theorems settling the frozen claims about it.

The frontend state logic (refresh, carry-forward merge, CDP patching,
display sorting) is translated directly from the TypeScript source.
The Rust backend (`get_edge_processes` group builder) is not part of the
provided sources; where a claim depends on it, the definition is modelled
from the specification and marked as such.
-/

namespace EdgeUtils

/-- Mirrors the `ProcessInfo` interface of ProcessesTab.tsx. -/
structure ProcessInfo where
  pid : Nat
  parent_pid : Option Nat
  name : String
  exe_path : String
  cmd_args : List String
  process_type : String
  memory_mb : Int
  cpu_percent : Int
  url : String
  cdp_target_type : String
  instance_type : String
deriving Repr, DecidableEq

/-- Mirrors the `ProcessGroup` interface of ProcessesTab.tsx. -/
structure ProcessGroup where
  browser_pid : Nat
  browser_exe : String
  channel : String
  instance_type : String
  host_app : String
  processes : List ProcessInfo
deriving Repr, DecidableEq

/-- JavaScript `s.startsWith(pat)` over the character list of a string. -/
def jsStartsWith (s pat : String) : Bool :=
  s.data.take pat.data.length == pat.data

/-- JavaScript `s.split("=")`: split the character list at every `'='`. -/
def splitEqAux : List Char → List Char → List (List Char)
  | [], acc => [acc.reverse]
  | c :: cs, acc =>
    if c = '=' then acc.reverse :: splitEqAux cs [] else splitEqAux cs (c :: acc)

/-- JavaScript `s.split("=")` as strings. -/
def jsSplitEq (s : String) : List String :=
  (splitEqAux s.data []).map (fun d => String.mk d)

/-- JavaScript `s.toLowerCase()` (the relevant process-type strings are
basic latin). -/
def jsToLower (s : String) : String :=
  String.mk (s.data.map Char.toLower)

/-- One entry of the `get_cdp_urls` response:
`{ process_id: number | null; url: string; target_type: string | null }`. -/
structure CdpEntry where
  process_id : Option Nat
  url : String
  target_type : Option String
deriving Repr, DecidableEq

/-- The `get_cdp_urls` response `Record<string, CdpEntry[]>`, keyed by port. -/
abbrev PortMap : Type := List (String × List CdpEntry)

/-- All process records of a group list, in group-then-member order
(the iteration order of the nested `for` loops building `urlMap`). -/
def allProcs (gs : List ProcessGroup) : List ProcessInfo :=
  (gs.map (fun g => g.processes)).flatten

/-- The pids occurring in a group list. -/
def pidsOf (gs : List ProcessGroup) : List Nat :=
  (allProcs gs).map (fun r => r.pid)

/-- The `urlMap` of `refresh` (lines 88-94): a `Map` from pid to the
`(url, cdp_target_type)` of records whose `url` is truthy (non-empty).
`Map.set` overwrites, so the value for a pid is the one of the LAST
record (in group-then-member iteration order) with that pid and a
non-empty url; modelled as `find?` on the reversed filtered list. -/
def urlMapLookup (prev : List ProcessGroup) (p : Nat) : Option (String × String) :=
  (((allProcs prev).filter (fun r => r.url ≠ "")).reverse.find?
      (fun r => r.pid == p)).map (fun r => (r.url, r.cdp_target_type))

/-- The per-record carry-forward of lines 98-101: overwrite the record's
`url`/`cdp_target_type` with the value stored for its pid in `urlMap`,
when present. -/
def cfRec (prev : List ProcessGroup) (proc : ProcessInfo) : ProcessInfo :=
  match urlMapLookup prev proc.pid with
  | some (u, t) => { proc with url := u, cdp_target_type := t }
  | none => proc

/-- The carry-forward merge of `refresh` (lines 95-102): map over the new
data, applying the per-record carry-forward to every member. -/
def carryForward (prev data : List ProcessGroup) : List ProcessGroup :=
  data.map (fun group => { group with processes := group.processes.map (cfRec prev) })

/-- The match predicate of line 126:
`pages.find((p) => p.process_id && p.process_id === proc.pid)`.
JavaScript truthiness: `p.process_id` is falsy when `null` AND when `0`. -/
def cdpMatches (proc : ProcessInfo) (e : CdpEntry) : Bool :=
  match e.process_id with
  | none => false
  | some v => decide (v ≠ 0) && (v == proc.pid)

/-- The per-record patch of lines 125-132. Returns the `groupChanged`
contribution together with the (possibly) updated record: a fresh object
is built only when the matched entry differs in `url` or target type
(`match.target_type ?? ""`), otherwise the original record is returned. -/
def patchProc (pages : List CdpEntry) (proc : ProcessInfo) : Bool × ProcessInfo :=
  match pages.find? (cdpMatches proc) with
  | some m =>
    if m.url ≠ proc.url ∨ m.target_type.getD "" ≠ proc.cdp_target_type then
      (true, { proc with url := m.url, cdp_target_type := m.target_type.getD "" })
    else (false, proc)
  | none => (false, proc)

/-- The port discovery of lines 117-120: find the first Browser-typed
member, find its first `--remote-debugging-port=` argument, take the
piece after the first `=` (JS `split("=")[1]`). -/
def browserPort (g : ProcessGroup) : Option String :=
  match g.processes.find? (fun p => p.process_type == "Browser") with
  | none => none
  | some b =>
    match b.cmd_args.find? (fun a => jsStartsWith a "--remote-debugging-port=") with
    | none => none
    | some arg => (jsSplitEq arg).get? 1

/-- The per-group patch of lines 116-137. The flag is the `groupChanged`
flag; `(false, g)` corresponds to the code paths that `return group`
unchanged (no Browser member, no/empty port, port not in the map,
or no record changed). -/
def patchGroup (m : PortMap) (g : ProcessGroup) : Bool × ProcessGroup :=
  match browserPort g with
  | none => (false, g)
  | some port =>
    if port = "" then (false, g)
    else
      match m.lookup port with
      | none => (false, g)
      | some pages =>
        let rs := g.processes.map (patchProc pages)
        if rs.any (fun r => r.1) then
          (true, { g with processes := rs.map (fun r => r.2) })
        else (false, g)

/-- The page list a group's records are checked against: the entries the
map holds for the group's discovered debugging port, empty when the group
exposes no (non-empty) port or the map has no data for it. -/
def pagesFor (m : PortMap) (g : ProcessGroup) : List CdpEntry :=
  match browserPort g with
  | none => []
  | some port => if port = "" then [] else (m.lookup port).getD []

/-- The whole patch updater of lines 114-139:
`const next = prev.map(...); return changed ? next : prev;`. -/
def patchGroups (m : PortMap) (gs : List ProcessGroup) : List ProcessGroup :=
  let rs := gs.map (patchGroup m)
  if rs.any (fun r => r.1) then rs.map (fun r => r.2) else gs

/-- Arrival of the `get_cdp_urls` result (lines 111-140): `none` models a
rejected promise (swallowed by `.catch`) or a null response; an empty map
returns before calling `setGroups` (line 112). -/
def applyCdpResult (res : Option PortMap) (gs : List ProcessGroup) : List ProcessGroup :=
  match res with
  | none => gs
  | some m => if m.isEmpty then gs else patchGroups m gs

/-- The relevant component state of `ProcessesTab`. -/
structure TabState where
  groups : List ProcessGroup
  statusMsg : String
  loading : Bool
deriving Repr, DecidableEq

/-- One `refresh(showLoading)` call up to (and including) the synchronous
publish, lines 82-109 and 141-144: on success the carry-forward merge is
applied and the new list published; on failure (`invoke` rejecting) the
catch block only logs to the console — `groups` and `statusMsg` are left
untouched. `loading` ends up false when `showLoading` was passed. -/
def refreshSnapshot (s : TabState) (result : Except String (List ProcessGroup))
    (showLoading : Bool) : TabState :=
  match result with
  | .ok data =>
    { s with
      groups := carryForward s.groups data
      loading := if showLoading then false else s.loading }
  | .error _ =>
    { s with loading := if showLoading then false else s.loading }

/-- Observable events on the published group list: a successful snapshot
publish (with its carry-forward merge), a failed snapshot acquisition,
and the asynchronous arrival of a correlation (`get_cdp_urls`) result.
The code applies every arriving patch to the CURRENT state via the
functional `setGroups` updater; there is no cycle counter. -/
inductive RefreshEvent where
  | publish (data : List ProcessGroup)
  | snapshotError (msg : String)
  | cdpArrival (res : Option PortMap)
deriving Repr, DecidableEq

/-- Effect of one event on the published group list. -/
def stepEvent (gs : List ProcessGroup) (e : RefreshEvent) : List ProcessGroup :=
  match e with
  | .publish data => carryForward gs data
  | .snapshotError _ => gs
  | .cdpArrival res => applyCdpResult res gs

/-- A whole interleaving of publishes and correlation arrivals. -/
def runEvents (gs : List ProcessGroup) (es : List RefreshEvent) : List ProcessGroup :=
  es.foldl stepEvent gs

/-- The `typeOrder[...] ?? 99` lookup of lines 201-207, applied to
`process_type.toLowerCase().replace(/\(s\)$/, "")` (lines 211-212). -/
def typeOrderKey (t : String) : Nat :=
  let low := jsToLower t
  let k :=
    if low.data.reverse.take 3 = [')', 's', '('] then
      String.mk ((low.data.reverse.drop 3).reverse)
    else low
  if k = "browser" then 0
  else if k = "renderer" then 1
  else if k = "gpu" then 2
  else if k = "crashpad" then 3
  else if k = "utility" then 4
  else 99

/-- The comparator of lines 210-214 as a relation: `aOrder - bOrder`
sorts ascending by `typeOrderKey`. -/
def keyLe (a b : ProcessInfo) : Prop :=
  typeOrderKey a.process_type ≤ typeOrderKey b.process_type

instance : DecidableRel keyLe := fun _ _ =>
  inferInstanceAs (Decidable (_ ≤ _))

instance : IsTotal ProcessInfo keyLe :=
  ⟨fun _ _ => Nat.le_total _ _⟩

instance : IsTrans ProcessInfo keyLe :=
  ⟨fun _ _ _ h h' => Nat.le_trans h h'⟩

/-- The display sort of lines 209-215: `[...procs].sort((a,b) => aOrder - bOrder)`.
`Array.prototype.sort` is stable (ES2019), and a stable sort by a numeric
key is the (unique) function computed by insertion sort with the
non-strict key comparison. -/
def sortProcesses (procs : List ProcessInfo) : List ProcessInfo :=
  List.insertionSort keyLe procs

/-- Modelled from the spec: the Group Builder (§4.2) lives in the Rust
backend behind the `get_edge_processes` command, which is not among the
provided sources. Following the spec's words: walk the parent-pid chain
upward, bounded by the size of the input set, until reaching a record
classified as Browser role, or until the chain breaks (parent pid not
present in this snapshot). -/
def walkToBrowser (records : List ProcessInfo) : Nat → ProcessInfo → Option Nat
  | fuel, r =>
    if r.process_type = "Browser" then some r.pid
    else
      match fuel with
      | 0 => none
      | fuel' + 1 =>
        match r.parent_pid with
        | none => none
        | some pp =>
          match records.find? (fun x => x.pid == pp) with
          | none => none
          | some parent => walkToBrowser records fuel' parent

/-- Modelled from the spec: the Browser-role pid at which a record's
bounded parent-pid walk terminates, if any. -/
def browserAnchor (records : List ProcessInfo) (r : ProcessInfo) : Option Nat :=
  walkToBrowser records records.length r

/-- Modelled from the spec: a built group is a Browser-role anchor pid
together with the member records (§4.2 steps 1-3; the claim under
verification concerns only `root_pid` and `members`). -/
structure BuiltGroup where
  root_pid : Nat
  members : List ProcessInfo
deriving Repr, DecidableEq

/-- Modelled from the spec: `build_groups` groups all records whose walk
terminates at the same Browser-role pid into one group anchored at that
pid; records whose walk never reaches a Browser-role ancestor are
excluded entirely; groups are ordered by first-seen root. -/
def build_groups (records : List ProcessInfo) : List BuiltGroup :=
  (records.filter (fun r => r.process_type = "Browser")).map (fun b =>
    { root_pid := b.pid
      members := records.filter (fun r => browserAnchor records r == some b.pid) })

/-! ## Concrete fixtures used by counterexamples and witnesses -/

/-- A process record with the given pid, parent, type, arguments and
debug fields; the payload fields are fixed harmless values. -/
def mkProc (pid : Nat) (pp : Option Nat) (ty : String) (args : List String)
    (u : String) (ct : String) : ProcessInfo :=
  ⟨pid, pp, "msedge.exe", "C:/msedge.exe", args, ty, 100, 2, u, ct, "Canary"⟩

def browser100 : ProcessInfo :=
  mkProc 100 none "Browser" ["msedge.exe", "--remote-debugging-port=9222"] "" ""

def rend101 : ProcessInfo :=
  mkProc 101 (some 100) "Renderer" ["msedge.exe", "--type=renderer"] "" ""

def helper102 : ProcessInfo :=
  mkProc 102 (some 999) "Utility" ["helper.exe", "--type=utility"] "" ""

/-- The renderer record once patched with the example endpoint data. -/
def rend101' : ProcessInfo :=
  { rend101 with url := "https://example.com", cdp_target_type := "page" }

/-- A fresh-snapshot group (no debug data yet). -/
def groupA : ProcessGroup :=
  ⟨100, "C:/msedge.exe", "Canary", "Canary", "", [browser100, rend101]⟩

/-- The same group after the example correlation patch. -/
def groupA' : ProcessGroup :=
  ⟨100, "C:/msedge.exe", "Canary", "Canary", "", [browser100, rend101']⟩

/-- The example endpoint response: port 9222 owns one page of pid 101. -/
def portMapA : PortMap :=
  [("9222", [⟨some 101, "https://example.com", some "page"⟩])]

/-- An endpoint response attributing its page to a pid present nowhere. -/
def portMapNoMatch : PortMap :=
  [("9222", [⟨some 555, "https://other.example", some "page"⟩])]

/-- A Browser-role record with pid 0 exposing a debugging port. -/
def browser0 : ProcessInfo :=
  mkProc 0 none "Browser" ["msedge.exe", "--remote-debugging-port=9222"] "" ""

/-- A one-member group rooted at the pid-0 browser. -/
def groupZero : ProcessGroup :=
  ⟨0, "C:/msedge.exe", "Canary", "Canary", "", [browser0]⟩

/-- An endpoint response attributing its page to process id 0. -/
def portMapZero : PortMap :=
  [("9222", [⟨some 0, "https://zero.example", some "page"⟩])]

def extProc : ProcessInfo := mkProc 1 none "Extension" [] "" ""

def utilProc : ProcessInfo := mkProc 2 none "Utility" [] "" ""

def rend5 : ProcessInfo := mkProc 5 none "Renderer" [] "" ""

def rend3 : ProcessInfo := mkProc 3 none "Renderer" [] "" ""

/-! ## Field-preservation infrastructure (claims C6, C10) -/

/-- All record fields except the two debug fields agree. -/
def sameCore (r r' : ProcessInfo) : Prop :=
  r'.pid = r.pid ∧ r'.parent_pid = r.parent_pid ∧ r'.name = r.name ∧
  r'.exe_path = r.exe_path ∧ r'.cmd_args = r.cmd_args ∧
  r'.memory_mb = r.memory_mb ∧ r'.cpu_percent = r.cpu_percent ∧
  r'.process_type = r.process_type ∧ r'.instance_type = r.instance_type

/-- All group-level fields agree and the member lists correspond
pointwise up to debug fields. -/
def sameShape (g g' : ProcessGroup) : Prop :=
  g'.browser_pid = g.browser_pid ∧ g'.browser_exe = g.browser_exe ∧
  g'.channel = g.channel ∧ g'.instance_type = g.instance_type ∧
  g'.host_app = g.host_app ∧ List.Forall₂ sameCore g.processes g'.processes

theorem sameCore_refl (r : ProcessInfo) : sameCore r r :=
  ⟨rfl, rfl, rfl, rfl, rfl, rfl, rfl, rfl, rfl⟩

theorem sameCore_patchProc (pages : List CdpEntry) (r : ProcessInfo) :
    sameCore r (patchProc pages r).2 := by
  unfold patchProc
  split
  · split
    · exact ⟨rfl, rfl, rfl, rfl, rfl, rfl, rfl, rfl, rfl⟩
    · exact sameCore_refl r
  · exact sameCore_refl r

theorem forall₂_map_self {α β : Type} (R : α → β → Prop) (f : α → β)
    (h : ∀ a, R a (f a)) : ∀ l : List α, List.Forall₂ R l (l.map f)
  | [] => .nil
  | a :: l => .cons (h a) (forall₂_map_self R f h l)

theorem sameShape_refl (g : ProcessGroup) : sameShape g g := by
  refine ⟨rfl, rfl, rfl, rfl, rfl, ?_⟩
  exact List.forall₂_same.mpr (fun r _ => sameCore_refl r)

theorem sameShape_patchGroup (m : PortMap) (g : ProcessGroup) :
    sameShape g (patchGroup m g).2 := by
  unfold patchGroup
  split
  · exact sameShape_refl g
  · split
    · exact sameShape_refl g
    · split
      · exact sameShape_refl g
      · dsimp only
        split
        · refine ⟨rfl, rfl, rfl, rfl, rfl, ?_⟩
          rw [List.map_map]
          exact forall₂_map_self sameCore _ (fun r => sameCore_patchProc _ r) _
        · exact sameShape_refl g

/-! ## Per-claim theorems start here -/

theorem patchGroups_forall₂ (m : PortMap) (gs : List ProcessGroup) :
    List.Forall₂ sameShape gs (patchGroups m gs) := by
  unfold patchGroups
  dsimp only
  split
  · rw [List.map_map]
    exact forall₂_map_self sameShape _ (fun g => sameShape_patchGroup m g) gs
  · exact List.forall₂_same.mpr (fun g _ => sameShape_refl g)

/-- C6. The correlation patch step mutates only the debug fields of
matching-pid records: every other record field, every group-level field,
the membership and the number and order of the published groups are
identical before and after the patch (stated as a pointwise
correspondence of the published list with its patched version, which
forces equal length, equal order, and equality of every non-debug
field). -/
theorem patch_preserves_non_debug_fields (m : PortMap) (gs : List ProcessGroup) :
    List.Forall₂ sameShape gs (patchGroups m gs) :=
  patchGroups_forall₂ m gs

theorem browserPort_none_patchGroup (m : PortMap) (g : ProcessGroup)
    (h : browserPort g = none) : patchGroup m g = (false, g) := by
  unfold patchGroup
  rw [h]

/-- C8. A group whose Browser-role root exposes no
`--remote-debugging-port=` argument — or which has no Browser-role member
at all — is not queried and none of its records is patched: the patch
leaves the group untouched whatever the endpoint returned for any port
(the conclusion holds for every `m`, so no port data can reach the
group). -/
theorem no_debug_port_group_unqueried (m : PortMap) (g : ProcessGroup)
    (h : (∀ p ∈ g.processes, p.process_type ≠ "Browser") ∨
      (∃ b, g.processes.find? (fun p => p.process_type == "Browser") = some b ∧
        ∀ a ∈ b.cmd_args, jsStartsWith a "--remote-debugging-port=" = false)) :
    patchGroup m g = (false, g) := by
  apply browserPort_none_patchGroup
  rcases h with h | ⟨b, hb, hargs⟩
  · have h1 : g.processes.find? (fun p => p.process_type == "Browser") = none :=
      List.find?_eq_none.mpr (fun p hp => by simp [h p hp])
    simp [browserPort, h1]
  · have h2 : b.cmd_args.find? (fun a => jsStartsWith a "--remote-debugging-port=") = none :=
      List.find?_eq_none.mpr (fun a ha => by simp [hargs a ha])
    simp [browserPort, hb, h2]

/-- Closed witness for the C8 theorem: a group with a Browser member
whose arguments carry no debugging-port flag, and a group with no
Browser member, are both left untouched by a populated port map. -/
theorem no_debug_port_group_unqueried_witness :
    patchGroup portMapA ⟨7, "e", "Stable", "Stable", "",
        [mkProc 7 none "Browser" ["msedge.exe", "--no-first-run"] "" ""]⟩ =
      (false, ⟨7, "e", "Stable", "Stable", "",
        [mkProc 7 none "Browser" ["msedge.exe", "--no-first-run"] "" ""]⟩) ∧
    patchGroup portMapA ⟨8, "e", "Stable", "Stable", "",
        [mkProc 8 none "Renderer" [] "" ""]⟩ =
      (false, ⟨8, "e", "Stable", "Stable", "", [mkProc 8 none "Renderer" [] "" ""]⟩) := by
  constructor
  · exact no_debug_port_group_unqueried portMapA _
      (Or.inr ⟨mkProc 7 none "Browser" ["msedge.exe", "--no-first-run"] "" "",
        by decide, by decide⟩)
  · exact no_debug_port_group_unqueried portMapA _ (Or.inl (by decide))

/-- C9. A failed or empty `get_cdp_urls` result never modifies the
published group list (the synchronous publish has already completed and
is not revisited): a rejected invocation (`none`, swallowed by `.catch`)
and an empty map leave the list untouched, and a port for which the map
holds no data (or an empty page list) leaves that group untouched, every
field keeping its post-publish carry-forward value. -/
theorem cdp_failure_leaves_groups_unchanged :
    (∀ gs : List ProcessGroup, applyCdpResult none gs = gs) ∧
    (∀ (gs : List ProcessGroup) (m : PortMap), m.isEmpty = true →
      applyCdpResult (some m) gs = gs) ∧
    (∀ (m : PortMap) (g : ProcessGroup),
      (∀ port, browserPort g = some port → port ≠ "" →
        m.lookup port = none ∨ m.lookup port = some []) →
      patchGroup m g = (false, g)) := by
  refine ⟨fun gs => rfl, fun gs m h => ?_, fun m g h => ?_⟩
  · simp [applyCdpResult, h]
  · unfold patchGroup
    cases hbp : browserPort g with
    | none => rfl
    | some port =>
      dsimp only
      by_cases hp : port = ""
      · rw [if_pos hp]
      · rw [if_neg hp]
        rcases h port hbp hp with hl | hl
        · rw [hl]
        · rw [hl]
          dsimp only
          have hany : (g.processes.map (patchProc [])).any (fun r => r.1) = false := by
            refine List.any_eq_false.mpr (fun x hx => ?_)
            rcases List.mem_map.mp hx with ⟨proc, _, rfl⟩
            simp [patchProc]
          rw [hany]
          simp

/-- Closed witness for the C9 theorem, at a rejected result, an empty
map, and a map carrying no data for the group's port 9222. -/
theorem cdp_failure_leaves_groups_unchanged_witness :
    applyCdpResult none [groupA] = [groupA] ∧
    applyCdpResult (some []) [groupA] = [groupA] ∧
    patchGroup [("1234", [])] groupA = (false, groupA) := by
  refine ⟨cdp_failure_leaves_groups_unchanged.1 [groupA],
    cdp_failure_leaves_groups_unchanged.2.1 [groupA] [] rfl,
    cdp_failure_leaves_groups_unchanged.2.2 [("1234", [])] groupA ?_⟩
  intro port hbp hp
  have h9 : browserPort groupA = some "9222" := by decide
  rw [h9] at hbp
  have : port = "9222" := (Option.some.inj hbp).symm
  subst this
  exact Or.inl (by decide)

/-- C5 counterexample. When the snapshot acquisition rejects, the claim
says the failure is surfaced as a dismissible status message; the code's
catch block only logs to the console: at this concrete input the status
message stays empty (while the previous group list is indeed retained
unchanged). -/
theorem snapshot_failure_no_status_message :
    refreshSnapshot ⟨[groupA'], "", false⟩ (.error "backend failure") true =
      ⟨[groupA'], "", false⟩ ∧
    (refreshSnapshot ⟨[groupA'], "", false⟩ (.error "backend failure") true).statusMsg
      = "" := by
  exact ⟨rfl, rfl⟩

/-- C5 as amended: for every refresh cycle in which acquiring the raw
snapshot fails, the whole cycle aborts, the previously published group
list is retained completely unchanged and the view is not cleared; the
failure is logged to the developer console and is NOT surfaced as a
status message (the status message is left exactly as it was). -/
theorem snapshot_failure_retains_state (s : TabState) (msg : String)
    (showLoading : Bool) :
    (refreshSnapshot s (.error msg) showLoading).groups = s.groups ∧
    (refreshSnapshot s (.error msg) showLoading).statusMsg = s.statusMsg :=
  ⟨rfl, rfl⟩

/-! ## Display sort (claim C3) -/

theorem filter_orderedInsert (k : Nat) (x : ProcessInfo) (l : List ProcessInfo) :
    (List.orderedInsert keyLe x l).filter (fun p => typeOrderKey p.process_type == k) =
      (x :: l).filter (fun p => typeOrderKey p.process_type == k) := by
  induction l with
  | nil => rfl
  | cons y ys ih =>
    by_cases h : keyLe x y
    · rw [List.orderedInsert, if_pos h]
    · rw [List.orderedInsert, if_neg h]
      have hlt : typeOrderKey y.process_type < typeOrderKey x.process_type :=
        Nat.lt_of_not_le h
      by_cases hx : typeOrderKey x.process_type = k
      · by_cases hy : typeOrderKey y.process_type = k
        · exact absurd hlt (by omega)
        · simp [List.filter_cons, beq_iff_eq, hx, hy, ih]
      · by_cases hy : typeOrderKey y.process_type = k
        · simp [List.filter_cons, beq_iff_eq, hx, hy, ih]
        · simp [List.filter_cons, beq_iff_eq, hx, hy, ih]

theorem filter_sortProcesses (k : Nat) (procs : List ProcessInfo) :
    (sortProcesses procs).filter (fun p => typeOrderKey p.process_type == k) =
      procs.filter (fun p => typeOrderKey p.process_type == k) := by
  induction procs with
  | nil => rfl
  | cons a l ih =>
    unfold sortProcesses at ih ⊢
    rw [List.insertionSort, filter_orderedInsert]
    simp only [List.filter_cons, ih]

/-- C3 counterexample. The claimed precedence puts Extension third
(before GPU, Crashpad, Utility) and breaks ties by ascending pid; the
code's typeOrder table has no entry for Extension (it falls to the
default 99, after Utility and level with Unknown) and the comparator
never looks at pids (the stable sort keeps input order on ties): an
Extension-typed record sorts AFTER a Utility-typed one, and two
Renderers stay in input order 5, 3 instead of 3, 5. -/
theorem sort_violates_role_precedence :
    sortProcesses [extProc, utilProc] = [utilProc, extProc] ∧
    extProc.process_type = "Extension" ∧ utilProc.process_type = "Utility" ∧
    sortProcesses [rend5, rend3] = [rend5, rend3] ∧
    rend5.process_type = rend3.process_type ∧ rend3.pid < rend5.pid := by
  decide

/-- C3 as amended: the display sort orders members by the fixed
precedence Browser, Renderer, GPU, Crashpad, Utility, with every other
role (Extension and Unknown included) last at the shared default
precedence; members of equal precedence keep their relative input order
(the sort is stable; pid is not a tiebreaker). Stated as: the output is
sorted by `typeOrderKey`, is a permutation of the input, and for every
precedence value the subsequence at that value equals the input's. -/
theorem sortProcesses_sorted_and_stable (procs : List ProcessInfo) :
    (sortProcesses procs).Sorted keyLe ∧
    List.Perm (sortProcesses procs) procs ∧
    ∀ k, (sortProcesses procs).filter (fun p => typeOrderKey p.process_type == k) =
      procs.filter (fun p => typeOrderKey p.process_type == k) :=
  ⟨List.sorted_insertionSort keyLe procs, List.perm_insertionSort keyLe procs,
    fun k => filter_sortProcesses k procs⟩

/-! ## Correlation matching (claim C7) -/

/-- C7 counterexample. The claim says an entry patches a record exactly
when its process_id equals the record's pid (within the port's group);
the code's truthiness guard `p.process_id && ...` also rejects the value
0: with a pid-0 Browser-role root in the queried group and an entry
attributed to process id 0, process_id equals the record's pid, yet the
record is left unpatched. -/
theorem zero_process_id_not_patched :
    (⟨some 0, "https://zero.example", some "page"⟩ : CdpEntry).process_id
        = some browser0.pid ∧
    browser0 ∈ groupZero.processes ∧
    browserPort groupZero = some "9222" ∧
    portMapZero.lookup "9222" = some [⟨some 0, "https://zero.example", some "page"⟩] ∧
    patchGroups portMapZero [groupZero] = [groupZero] ∧
    browser0.url ≠ "https://zero.example" := by
  decide

/-- C7 as amended: an entry whose process_id is absent (null) matches no
record and raises no error; an entry matches a record exactly when its
process_id is present, NONZERO, and equal to the record's pid (within the
pages of the record's own group, per the group-scoped lookup of C8); a
record whose page list yields no match keeps its debug fields unchanged
for the cycle, and a found match sets the record's `url` and
`cdp_target_type` (the latter defaulting to the empty string when the
entry's target_type is null). -/
theorem patch_match_characterization (pages : List CdpEntry) (proc : ProcessInfo) :
    (∀ e : CdpEntry, e.process_id = none → cdpMatches proc e = false) ∧
    (∀ e : CdpEntry, cdpMatches proc e = true ↔
      ∃ v, e.process_id = some v ∧ v ≠ 0 ∧ v = proc.pid) ∧
    (pages.find? (cdpMatches proc) = none → patchProc pages proc = (false, proc)) ∧
    (∀ e, pages.find? (cdpMatches proc) = some e →
      (patchProc pages proc).2.url = e.url ∧
      (patchProc pages proc).2.cdp_target_type = e.target_type.getD "") := by
  refine ⟨?_, ?_, ?_, ?_⟩
  · intro e he
    simp [cdpMatches, he]
  · intro e
    obtain ⟨pi, eu, et⟩ := e
    cases pi with
    | none => simp [cdpMatches]
    | some v =>
      simp only [cdpMatches, Bool.and_eq_true, decide_eq_true_eq, beq_iff_eq]
      constructor
      · rintro ⟨h0, hp⟩
        exact ⟨v, rfl, h0, hp⟩
      · rintro ⟨w, hw, h0, hp⟩
        obtain rfl : v = w := Option.some.inj hw
        exact ⟨h0, hp⟩
  · intro h
    unfold patchProc
    rw [h]
  · intro e h
    unfold patchProc
    rw [h]
    dsimp only
    split
    · exact ⟨rfl, rfl⟩
    · next hcond =>
        push_neg at hcond
        exact ⟨hcond.1.symm, hcond.2.symm⟩

/-- Closed witness for the C7 theorem at concrete entries: a null
process_id never matches; a nonzero matching pid does match; an empty
page list patches nothing; a found entry's url is written through. -/
theorem patch_match_characterization_witness :
    cdpMatches rend101 ⟨none, "u", none⟩ = false ∧
    cdpMatches rend101 ⟨some 101, "https://example.com", some "page"⟩ = true ∧
    patchProc [] rend101 = (false, rend101) ∧
    (patchProc [⟨some 101, "https://example.com", some "page"⟩] rend101).2.url
      = "https://example.com" := by
  refine ⟨(patch_match_characterization [] rend101).1 _ rfl, ?_, ?_, ?_⟩
  · exact (patch_match_characterization [] rend101).2.1 _ |>.mpr
      ⟨101, rfl, by decide, by decide⟩
  · exact (patch_match_characterization [] rend101).2.2.1 rfl
  · exact ((patch_match_characterization
      [⟨some 101, "https://example.com", some "page"⟩] rend101).2.2.2
      ⟨some 101, "https://example.com", some "page"⟩ (by decide)).1

/-! ## Patch no-op and idempotence infrastructure (claims C1, C10) -/

theorem patchProc_cases (pages : List CdpEntry) (proc : ProcessInfo) :
    (patchProc pages proc).1 = true ∨ patchProc pages proc = (false, proc) := by
  unfold patchProc
  split
  · split
    · left; rfl
    · right; rfl
  · right; rfl

theorem patchGroup_cases (m : PortMap) (g : ProcessGroup) :
    (patchGroup m g).1 = true ∨ patchGroup m g = (false, g) := by
  unfold patchGroup
  split
  · right; rfl
  · split
    · right; rfl
    · split
      · right; rfl
      · dsimp only
        split
        · left; rfl
        · right; rfl

theorem patchGroup_of_fst_false {m : PortMap} {g : ProcessGroup}
    (h : (patchGroup m g).1 = false) : patchGroup m g = (false, g) := by
  rcases patchGroup_cases m g with h1 | h1
  · rw [h1] at h
    cases h
  · exact h1

theorem patchGroups_noop (m : PortMap) (gs : List ProcessGroup)
    (h : ∀ g ∈ gs, (patchGroup m g).1 = false) : patchGroups m gs = gs := by
  unfold patchGroups
  dsimp only
  have hany : (gs.map (patchGroup m)).any (fun r => r.1) = false :=
    List.any_eq_false.mpr (fun x hx => by
      rcases List.mem_map.mp hx with ⟨g, hg, rfl⟩
      simp [h g hg])
  rw [hany]
  simp

theorem pagesFor_eq {m : PortMap} {g : ProcessGroup} {port : String}
    {pages : List CdpEntry} (h1 : browserPort g = some port) (h2 : port ≠ "")
    (h3 : m.lookup port = some pages) : pagesFor m g = pages := by
  simp [pagesFor, h1, h2, h3]

theorem patchProc_fst_false_of_matches (pages : List CdpEntry) (proc : ProcessInfo)
    (h : ∀ e ∈ pages, cdpMatches proc e = true →
      e.url = proc.url ∧ e.target_type.getD "" = proc.cdp_target_type) :
    (patchProc pages proc).1 = false := by
  unfold patchProc
  cases hf : pages.find? (cdpMatches proc) with
  | none => rfl
  | some e =>
    have he := List.find?_some hf
    have hem := List.mem_of_find?_eq_some hf
    rcases h e hem he with ⟨hu, ht⟩
    dsimp only
    rw [if_neg (by simp [hu, ht])]

theorem patchGroup_fst_false_of_matches (m : PortMap) (g : ProcessGroup)
    (h : ∀ proc ∈ g.processes, ∀ e ∈ pagesFor m g, cdpMatches proc e = true →
      e.url = proc.url ∧ e.target_type.getD "" = proc.cdp_target_type) :
    (patchGroup m g).1 = false := by
  unfold patchGroup
  cases hbp : browserPort g with
  | none => rfl
  | some port =>
    dsimp only
    by_cases hp : port = ""
    · rw [if_pos hp]
    · rw [if_neg hp]
      cases hl : m.lookup port with
      | none => rfl
      | some pages =>
        dsimp only
        have hpf : pagesFor m g = pages := pagesFor_eq hbp hp hl
        have hany : (g.processes.map (patchProc pages)).any (fun r => r.1) = false :=
          List.any_eq_false.mpr (fun x hx => by
            rcases List.mem_map.mp hx with ⟨proc, hproc, rfl⟩
            have := patchProc_fst_false_of_matches pages proc
              (fun e he hm => h proc hproc e (hpf ▸ he) hm)
            simp [this])
        rw [hany]
        simp

theorem patchProc_pid (pages : List CdpEntry) (proc : ProcessInfo) :
    ((patchProc pages proc).2).pid = proc.pid :=
  (sameCore_patchProc pages proc).1

theorem patchProc_cmd_args (pages : List CdpEntry) (proc : ProcessInfo) :
    ((patchProc pages proc).2).cmd_args = proc.cmd_args :=
  (sameCore_patchProc pages proc).2.2.2.2.1

theorem patchProc_process_type (pages : List CdpEntry) (proc : ProcessInfo) :
    ((patchProc pages proc).2).process_type = proc.process_type :=
  (sameCore_patchProc pages proc).2.2.2.2.2.2.2.1

theorem patchProc_debug_of_find (pages : List CdpEntry) (proc : ProcessInfo)
    (e : CdpEntry) (h : pages.find? (cdpMatches proc) = some e) :
    ((patchProc pages proc).2).url = e.url ∧
    ((patchProc pages proc).2).cdp_target_type = e.target_type.getD "" := by
  unfold patchProc
  rw [h]
  dsimp only
  split
  · exact ⟨rfl, rfl⟩
  · next hcond =>
      push_neg at hcond
      exact ⟨hcond.1.symm, hcond.2.symm⟩

theorem cdpMatches_congr {proc proc' : ProcessInfo} (h : proc'.pid = proc.pid) :
    cdpMatches proc' = cdpMatches proc := by
  funext e
  unfold cdpMatches
  rw [h]

theorem patchProc_idem (pages : List CdpEntry) (proc : ProcessInfo) :
    patchProc pages ((patchProc pages proc).2) = (false, (patchProc pages proc).2) := by
  have hfind : pages.find? (cdpMatches ((patchProc pages proc).2)) =
      pages.find? (cdpMatches proc) := by
    rw [cdpMatches_congr (patchProc_pid pages proc)]
  cases hf : pages.find? (cdpMatches proc) with
  | none =>
    generalize hgen : (patchProc pages proc).2 = r' at hfind ⊢
    unfold patchProc
    rw [hfind, hf]
  | some e =>
    have hdbg := patchProc_debug_of_find pages proc e hf
    generalize hgen : (patchProc pages proc).2 = r' at hfind hdbg ⊢
    unfold patchProc
    rw [hfind, hf]
    dsimp only
    rw [if_neg (by simp [hdbg.1, hdbg.2])]

theorem patchGroup_shape (m : PortMap) (g : ProcessGroup) :
    patchGroup m g = (false, g) ∨
    ∃ port pages, browserPort g = some port ∧ port ≠ "" ∧ m.lookup port = some pages ∧
      patchGroup m g = (true, { g with
        processes := g.processes.map (fun r => (patchProc pages r).2) }) := by
  unfold patchGroup
  cases hbp : browserPort g with
  | none => left; rfl
  | some port =>
    dsimp only
    by_cases hp : port = ""
    · left
      rw [if_pos hp]
    · rw [if_neg hp]
      cases hl : m.lookup port with
      | none => left; rfl
      | some pages =>
        dsimp only
        by_cases hany : (g.processes.map (patchProc pages)).any (fun r => r.1) = true
        · right
          refine ⟨port, pages, rfl, hp, hl, ?_⟩
          rw [if_pos hany, List.map_map]
          rfl
        · left
          rw [if_neg hany]

theorem browserPort_map_patchProc (g : ProcessGroup) (pages : List CdpEntry) :
    browserPort { g with processes := g.processes.map (fun r => (patchProc pages r).2) } =
      browserPort g := by
  unfold browserPort
  dsimp only
  rw [List.find?_map]
  have hpred : ((fun p : ProcessInfo => p.process_type == "Browser") ∘
      (fun r => (patchProc pages r).2)) = (fun p : ProcessInfo => p.process_type == "Browser") := by
    funext r
    simp [Function.comp, patchProc_process_type]
  rw [hpred]
  cases hf : g.processes.find? (fun p => p.process_type == "Browser") with
  | none => rfl
  | some b =>
    dsimp only [Option.map]
    rw [patchProc_cmd_args]

theorem patchGroup_idem (m : PortMap) (g : ProcessGroup) :
    patchGroup m ((patchGroup m g).2) = (false, (patchGroup m g).2) := by
  rcases patchGroup_shape m g with h | ⟨port, pages, hbp, hp, hl, heq⟩
  · rw [h]
    exact h
  · rw [heq]
    dsimp only
    set g' := { g with processes := g.processes.map (fun r => (patchProc pages r).2) }
      with hg'
    have hbp' : browserPort g' = some port := by
      rw [hg', browserPort_map_patchProc]
      exact hbp
    unfold patchGroup
    rw [hbp']
    dsimp only
    rw [if_neg hp, hl]
    dsimp only
    have hprocs : g'.processes = g.processes.map (fun r => (patchProc pages r).2) := by
      rw [hg']
    have hany : (g'.processes.map (patchProc pages)).any (fun r => r.1) = false := by
      rw [hprocs, List.map_map]
      refine List.any_eq_false.mpr (fun x hx => ?_)
      rcases List.mem_map.mp hx with ⟨r, hr, rfl⟩
      simp [Function.comp, patchProc_idem]
    rw [hany]
    simp

theorem mem_patchGroups_fst_false (m : PortMap) (gs : List ProcessGroup)
    (g' : ProcessGroup) (h : g' ∈ patchGroups m gs) : (patchGroup m g').1 = false := by
  unfold patchGroups at h
  dsimp only at h
  split at h
  · rcases List.mem_map.mp h with ⟨x, hx, rfl⟩
    rcases List.mem_map.mp hx with ⟨g, hg, rfl⟩
    rw [patchGroup_idem]
  · next hany =>
      cases hb : (patchGroup m g').1 with
      | false => rfl
      | true =>
        exact absurd (List.any_eq_true.mpr
          ⟨patchGroup m g', List.mem_map_of_mem _ h, hb⟩) hany

theorem patchGroups_idem (m : PortMap) (gs : List ProcessGroup) :
    patchGroups m (patchGroups m gs) = patchGroups m gs :=
  patchGroups_noop m _ (fun g' h => mem_patchGroups_fst_false m gs g' h)

/-- C10. A correlation result that would change no record's url or
cdp_target_type (every entry reachable through a group's port that
matches a record already carries exactly the record's current values)
leaves the published list unchanged — the code's changed-flag makes the
updater return `prev` itself rather than a rebuilt copy — and therefore
applying the same correlation data a second time is always a no-op after
the first application. -/
theorem noop_patch_identity_and_idempotent (m : PortMap) (gs : List ProcessGroup) :
    ((∀ g ∈ gs, ∀ proc ∈ g.processes, ∀ e ∈ pagesFor m g, cdpMatches proc e = true →
        e.url = proc.url ∧ e.target_type.getD "" = proc.cdp_target_type) →
      patchGroups m gs = gs) ∧
    patchGroups m (patchGroups m gs) = patchGroups m gs := by
  constructor
  · intro h
    exact patchGroups_noop m gs (fun g hg => patchGroup_fst_false_of_matches m g (h g hg))
  · exact patchGroups_idem m gs

/-- Closed witness for the C10 theorem: the endpoint data for port 9222
is already present on the published records, so the patch is the
identity; and patching twice with the same map equals patching once. -/
theorem noop_patch_identity_and_idempotent_witness :
    patchGroups portMapA [groupA'] = [groupA'] ∧
    patchGroups portMapA (patchGroups portMapA [groupA]) =
      patchGroups portMapA [groupA] :=
  ⟨(noop_patch_identity_and_idempotent portMapA [groupA']).1 (by decide),
   (noop_patch_identity_and_idempotent portMapA [groupA]).2⟩

/-- C1 counterexample. Cycle N publishes the list built from a snapshot
and launches its correlation query; its response (portMapA, captured
against cycle N's groups) arrives only after cycle N+1 has published a
new list built from an identical snapshot. The claim says the stale
patch must be discarded, leaving the state as published by cycle N+1;
the code has no cycle counter and applies the patch to the current list
wherever pid/port still match, so pid 101's record changes. -/
theorem stale_patch_applied_after_next_publish :
    runEvents [] [.publish [groupA], .publish [groupA],
        .cdpArrival (some portMapA)] = [groupA'] ∧
    runEvents [] [.publish [groupA], .publish [groupA]] = [groupA] ∧
    groupA' ≠ groupA := by
  decide

/-- C1 as amended: a late-arriving correlation patch from a superseded
cycle is not unconditionally discarded; it is applied to the currently
published list under exactly the same port/pid matching as a fresh
patch. In particular, whenever no currently published record still
matches the patch by group-port/pid identity, the patch leaves the
published state entirely unchanged (a no-op patch — one whose matches
carry only already-present values — also leaves it unchanged, so the
no-match condition is sufficient, not necessary). -/
theorem stale_patch_only_matches_current (m : PortMap) (s : List ProcessGroup)
    (h : ∀ g ∈ s, ∀ proc ∈ g.processes, ∀ e ∈ pagesFor m g,
      cdpMatches proc e = false) :
    stepEvent s (.cdpArrival (some m)) = s := by
  show applyCdpResult (some m) s = s
  by_cases he : m.isEmpty
  · simp [applyCdpResult, he]
  · simp only [applyCdpResult]
    rw [if_neg he]
    apply patchGroups_noop
    intro g hg
    apply patchGroup_fst_false_of_matches
    intro proc hproc e hepages hmatch
    rw [h g hg proc hproc e hepages] at hmatch
    cases hmatch

/-- Closed witness for the amended C1 theorem: a stale response whose
only entry is attributed to pid 555, which no published record carries,
leaves the published list unchanged on arrival. -/
theorem stale_patch_only_matches_current_witness :
    stepEvent [groupA] (.cdpArrival (some portMapNoMatch)) = [groupA] :=
  stale_patch_only_matches_current portMapNoMatch [groupA] (by decide)

/-! ## Carry-forward preservation (claim C2) -/

/-- A refresh-cycle event during which the Correlator produces no fresh
data attributed to pid `p` and (for a publish) pid `p` is still present
in the snapshot — the conditions under which the claim asserts the
carried value survives the event. -/
def eventKeepsPid (p : Nat) : RefreshEvent → Prop
  | .publish d => ∃ r ∈ allProcs d, r.pid = p
  | .snapshotError _ => True
  | .cdpArrival none => True
  | .cdpArrival (some m) => ∀ pr ∈ m, ∀ e ∈ pr.2, e.process_id ≠ some p

instance (p : Nat) (e : RefreshEvent) : Decidable (eventKeepsPid p e) := by
  cases e with
  | publish d => exact List.decidableBEx _ _
  | snapshotError msg => exact inferInstanceAs (Decidable True)
  | cdpArrival res =>
    cases res with
    | none => exact inferInstanceAs (Decidable True)
    | some m => exact List.decidableBAll _ _

theorem mem_allProcs {r : ProcessInfo} {gs : List ProcessGroup} :
    r ∈ allProcs gs ↔ ∃ g ∈ gs, r ∈ g.processes := by
  unfold allProcs
  simp only [List.mem_flatten, List.mem_map]
  constructor
  · rintro ⟨l, ⟨g, hg, rfl⟩, hr⟩
    exact ⟨g, hg, hr⟩
  · rintro ⟨g, hg, hr⟩
    exact ⟨g.processes, ⟨g, hg, rfl⟩, hr⟩

theorem cfRec_pid (prev : List ProcessGroup) (proc : ProcessInfo) :
    (cfRec prev proc).pid = proc.pid := by
  unfold cfRec
  split <;> rfl

theorem allProcs_carryForward (prev d : List ProcessGroup) :
    allProcs (carryForward prev d) = (allProcs d).map (cfRec prev) := by
  unfold allProcs carryForward
  rw [List.map_map, List.map_flatten, List.map_map]
  rfl

theorem urlMapLookup_of_invariant {s : List ProcessGroup} {p : Nat} {u t : String}
    (hex : ∃ r ∈ allProcs s, r.pid = p)
    (hall : ∀ r ∈ allProcs s, r.pid = p → r.url = u ∧ r.cdp_target_type = t)
    (hu : u ≠ "") : urlMapLookup s p = some (u, t) := by
  unfold urlMapLookup
  rcases hex with ⟨r0, hr0, hpid⟩
  have hr0' : r0 ∈ ((allProcs s).filter (fun r => r.url ≠ "")).reverse := by
    rw [List.mem_reverse, List.mem_filter]
    have hru : r0.url = u := (hall r0 hr0 hpid).1
    exact ⟨hr0, by simp [hru, hu]⟩
  have hsome : (((allProcs s).filter (fun r => r.url ≠ "")).reverse.find?
      (fun r => r.pid == p)).isSome := by
    rw [List.find?_isSome]
    exact ⟨r0, hr0', by simp [hpid]⟩
  obtain ⟨r1, hr1⟩ := Option.isSome_iff_exists.mp hsome
  rw [hr1]
  have hr1mem : r1 ∈ allProcs s := by
    have hm := List.mem_of_find?_eq_some hr1
    rw [List.mem_reverse, List.mem_filter] at hm
    exact hm.1
  have hr1pid : r1.pid = p := by simpa using List.find?_some hr1
  rcases hall r1 hr1mem hr1pid with ⟨h1, h2⟩
  simp [h1, h2]

theorem carryForward_invariant {s d : List ProcessGroup} {p : Nat} {u t : String}
    (hu : u ≠ "")
    (hex : ∃ r ∈ allProcs s, r.pid = p)
    (hall : ∀ r ∈ allProcs s, r.pid = p → r.url = u ∧ r.cdp_target_type = t)
    (hd : ∃ r ∈ allProcs d, r.pid = p) :
    (∃ r ∈ allProcs (carryForward s d), r.pid = p) ∧
    (∀ r ∈ allProcs (carryForward s d), r.pid = p →
      r.url = u ∧ r.cdp_target_type = t) := by
  have hlk := urlMapLookup_of_invariant hex hall hu
  constructor
  · rcases hd with ⟨r, hr, hpid⟩
    refine ⟨cfRec s r, ?_, by rw [cfRec_pid]; exact hpid⟩
    rw [allProcs_carryForward]
    exact List.mem_map_of_mem _ hr
  · intro r' hr' hpid
    rw [allProcs_carryForward] at hr'
    rcases List.mem_map.mp hr' with ⟨r, _, rfl⟩
    rw [cfRec_pid] at hpid
    unfold cfRec
    rw [hpid, hlk]
    exact ⟨rfl, rfl⟩

theorem lookup_mem {β : Type} : ∀ (l : List (String × β)) (k : String) (v : β),
    l.lookup k = some v → ∃ k', (k', v) ∈ l := by
  intro l
  induction l with
  | nil => intro k v h; simp [List.lookup] at h
  | cons kv tl ih =>
    intro k v h
    obtain ⟨k1, v1⟩ := kv
    rw [List.lookup] at h
    by_cases hk : (k == k1) = true
    · rw [hk] at h
      exact ⟨k1, by simp [Option.some.inj h]⟩
    · rw [Bool.not_eq_true] at hk
      rw [hk] at h
      rcases ih k v h with ⟨k', hk'⟩
      exact ⟨k', List.mem_cons_of_mem _ hk'⟩

theorem patchProc_nodata {pages : List CdpEntry} {proc : ProcessInfo} {p : Nat}
    (hp : proc.pid = p) (hnd : ∀ e ∈ pages, e.process_id ≠ some p) :
    patchProc pages proc = (false, proc) := by
  unfold patchProc
  have hnone : pages.find? (cdpMatches proc) = none :=
    List.find?_eq_none.mpr (fun e he => by
      unfold cdpMatches
      cases hpe : e.process_id with
      | none => simp
      | some v =>
        simp only [Bool.and_eq_true, decide_eq_true_eq, beq_iff_eq, not_and]
        intro _ hv
        exact absurd (by rw [hpe, hv, hp]) (hnd e he))
  rw [hnone]

theorem forall₂_exists_right {α β : Type} {R : α → β → Prop} :
    ∀ {l : List α} {l' : List β}, List.Forall₂ R l l' → ∀ {a}, a ∈ l → ∃ b ∈ l', R a b := by
  intro l l' h
  induction h with
  | nil => intro a ha; cases ha
  | cons hR _ ih =>
    intro a ha
    rcases List.mem_cons.mp ha with rfl | ha
    · exact ⟨_, List.mem_cons_self _ _, hR⟩
    · rcases ih ha with ⟨b, hb, hRb⟩
      exact ⟨b, List.mem_cons_of_mem _ hb, hRb⟩

theorem patchGroups_pid_invariant {m : PortMap} {s : List ProcessGroup} {p : Nat}
    {u t : String}
    (hnd : ∀ pr ∈ m, ∀ e ∈ pr.2, e.process_id ≠ some p)
    (hex : ∃ r ∈ allProcs s, r.pid = p)
    (hall : ∀ r ∈ allProcs s, r.pid = p → r.url = u ∧ r.cdp_target_type = t) :
    (∃ r ∈ allProcs (patchGroups m s), r.pid = p) ∧
    (∀ r ∈ allProcs (patchGroups m s), r.pid = p →
      r.url = u ∧ r.cdp_target_type = t) := by
  constructor
  · rcases hex with ⟨r, hr, hpid⟩
    rcases mem_allProcs.mp hr with ⟨g, hg, hrg⟩
    have hshape := patchGroups_forall₂ m s
    rcases forall₂_exists_right hshape hg with ⟨g', hg', hsh⟩
    rcases forall₂_exists_right hsh.2.2.2.2.2 hrg with ⟨r', hr', hcore⟩
    exact ⟨r', mem_allProcs.mpr ⟨g', hg', hr'⟩, by rw [hcore.1]; exact hpid⟩
  · intro r' hr' hpid
    rcases mem_allProcs.mp hr' with ⟨g', hg', hrg'⟩
    unfold patchGroups at hg'
    dsimp only at hg'
    split at hg'
    · rcases List.mem_map.mp hg' with ⟨x, hx, rfl⟩
      rcases List.mem_map.mp hx with ⟨g, hg, rfl⟩
      rcases patchGroup_shape m g with hsh | ⟨port, pages, _, _, hl, hsh⟩
      · rw [hsh] at hrg'
        exact hall r' (mem_allProcs.mpr ⟨g, hg, hrg'⟩) hpid
      · rw [hsh] at hrg'
        dsimp only at hrg'
        rcases List.mem_map.mp hrg' with ⟨r, hrmem, rfl⟩
        have hrp : r.pid = p := by rw [patchProc_pid] at hpid; exact hpid
        have hpages : ∀ e ∈ pages, e.process_id ≠ some p := by
          rcases lookup_mem m port pages hl with ⟨k', hk'⟩
          exact fun e he => hnd (k', pages) hk' e he
        rw [patchProc_nodata hrp hpages]
        exact hall r (mem_allProcs.mpr ⟨g, hg, hrmem⟩) hrp
    · exact hall r' (mem_allProcs.mpr ⟨g', hg', hrg'⟩) hpid

theorem runEvents_invariant {p : Nat} {u t : String} (hu : u ≠ "") :
    ∀ (es : List RefreshEvent) (s : List ProcessGroup),
    (∃ r ∈ allProcs s, r.pid = p) →
    (∀ r ∈ allProcs s, r.pid = p → r.url = u ∧ r.cdp_target_type = t) →
    (∀ e ∈ es, eventKeepsPid p e) →
    (∃ r ∈ allProcs (runEvents s es), r.pid = p) ∧
    (∀ r ∈ allProcs (runEvents s es), r.pid = p →
      r.url = u ∧ r.cdp_target_type = t)
  | [], s, hex, hall, _ => ⟨hex, hall⟩
  | e :: es, s, hex, hall, hes => by
    have hstep : (∃ r ∈ allProcs (stepEvent s e), r.pid = p) ∧
        (∀ r ∈ allProcs (stepEvent s e), r.pid = p →
          r.url = u ∧ r.cdp_target_type = t) := by
      cases e with
      | publish d =>
        exact carryForward_invariant hu hex hall (hes _ (List.mem_cons_self _ _))
      | snapshotError msg => exact ⟨hex, hall⟩
      | cdpArrival res =>
        cases res with
        | none => exact ⟨hex, hall⟩
        | some m =>
          have hgoal : stepEvent s (RefreshEvent.cdpArrival (some m)) =
              applyCdpResult (some m) s := rfl
          rw [hgoal]
          by_cases hemp : m.isEmpty
          · simp only [applyCdpResult, if_pos hemp]
            exact ⟨hex, hall⟩
          · simp only [applyCdpResult, if_neg hemp]
            exact patchGroups_pid_invariant (hes _ (List.mem_cons_self _ _)) hex hall
    exact runEvents_invariant hu es (stepEvent s e) hstep.1 hstep.2
      (fun e' he' => hes e' (List.mem_cons_of_mem _ he'))

theorem nodup_pid_unique {s : List ProcessGroup} (hnodup : (pidsOf s).Nodup)
    {r r' : ProcessInfo} (hr : r ∈ allProcs s) (hr' : r' ∈ allProcs s)
    (hpp : r.pid = r'.pid) : r = r' := by
  unfold pidsOf at hnodup
  exact List.inj_on_of_nodup_map hnodup hr hr' hpp

/-- C2. Carry-forward: if the immediately preceding published list holds
a (unique, by pid-Nodup) record for pid p with a non-empty url, then
across any sequence of events in which every publish's snapshot still
contains pid p and the Correlator never attributes data to pid p, the
published list always holds a record for p and every record for p
carries exactly the prior url and target type; and (second conjunct)
when a snapshot no longer contains pid p, the newly published list holds
no record for p at all, so no carried value appears. -/
theorem carry_forward_preserves_debug_url
    (s0 : List ProcessGroup) (r0 : ProcessInfo) (p : Nat) (es : List RefreshEvent)
    (hnodup : (pidsOf s0).Nodup)
    (hr0 : r0 ∈ allProcs s0) (hp : r0.pid = p) (hu : r0.url ≠ "")
    (hes : ∀ e ∈ es, eventKeepsPid p e) :
    ((∃ r ∈ allProcs (runEvents s0 es), r.pid = p) ∧
     (∀ r ∈ allProcs (runEvents s0 es), r.pid = p →
        r.url = r0.url ∧ r.cdp_target_type = r0.cdp_target_type)) ∧
    (∀ (s d : List ProcessGroup), (∀ r ∈ allProcs d, r.pid ≠ p) →
      ∀ r ∈ allProcs (carryForward s d), r.pid ≠ p) := by
  constructor
  · have hall0 : ∀ r ∈ allProcs s0, r.pid = p →
        r.url = r0.url ∧ r.cdp_target_type = r0.cdp_target_type := by
      intro r hr hrp
      have hrr : r = r0 := nodup_pid_unique hnodup hr hr0 (by rw [hrp, hp])
      rw [hrr]
      exact ⟨rfl, rfl⟩
    exact runEvents_invariant hu es s0 ⟨r0, hr0, hp⟩ hall0 hes
  · intro s d hd r hr
    rw [allProcs_carryForward] at hr
    rcases List.mem_map.mp hr with ⟨r1, hr1, rfl⟩
    rw [cfRec_pid]
    exact hd r1 hr1

/-- Closed witness for the C2 theorem: pid 101's url survives a publish
whose snapshot lacks debug data, a correlation arrival attributed to an
unrelated pid, a snapshot failure, and another publish. -/
theorem carry_forward_preserves_debug_url_witness :
    (∃ r ∈ allProcs (runEvents [groupA'] [.publish [groupA],
        .cdpArrival (some portMapNoMatch), .snapshotError "fail",
        .publish [groupA]]), r.pid = 101) ∧
    (∀ r ∈ allProcs (runEvents [groupA'] [.publish [groupA],
        .cdpArrival (some portMapNoMatch), .snapshotError "fail",
        .publish [groupA]]), r.pid = 101 →
      r.url = rend101'.url ∧ r.cdp_target_type = rend101'.cdp_target_type) :=
  (carry_forward_preserves_debug_url [groupA'] rend101' 101
    [.publish [groupA], .cdpArrival (some portMapNoMatch), .snapshotError "fail",
      .publish [groupA]]
    (by decide) (by decide) (by decide) (by decide) (by decide)).1

/-! ## Group builder (claim C4, modelled from the spec) -/

/-- C4 (spec-modelled backend). Every built group's members are exactly
the classified records whose bounded parent-pid walk terminates at that
group's root pid (the root itself included, since its walk stops at
itself); under per-snapshot pid uniqueness the groups are pairwise
disjoint, so no record appears in two groups; and a record whose walk
never reaches a Browser-role record of the snapshot appears in no group
at all. -/
theorem build_groups_members_partition (records : List ProcessInfo)
    (hnodup : ((records.map (fun r => r.pid)).Nodup)) :
    (∀ g ∈ build_groups records, ∀ r,
      r ∈ g.members ↔ (r ∈ records ∧ browserAnchor records r = some g.root_pid)) ∧
    (build_groups records).Pairwise
      (fun g₁ g₂ => ∀ r, r ∈ g₁.members → r ∉ g₂.members) ∧
    (∀ r ∈ records, browserAnchor records r = none →
      ∀ g ∈ build_groups records, r ∉ g.members) := by
  refine ⟨?_, ?_, ?_⟩
  · intro g hg r
    rcases List.mem_map.mp hg with ⟨b, _, rfl⟩
    dsimp only
    rw [List.mem_filter]
    simp [beq_iff_eq]
  · unfold build_groups
    rw [List.pairwise_map]
    have hroots : (records.filter (fun r => r.process_type = "Browser")).Pairwise
        (fun b₁ b₂ => b₁.pid ≠ b₂.pid) := by
      have hsub : ((records.filter (fun r => r.process_type = "Browser")).map
          (fun r => r.pid)).Nodup :=
        hnodup.sublist ((List.filter_sublist _).map _)
      exact List.pairwise_map.mp hsub
    refine hroots.imp ?_
    intro b₁ b₂ hne r hr1 hr2
    rw [List.mem_filter] at hr1 hr2
    have h1 : browserAnchor records r = some b₁.pid := by
      have := hr1.2
      simpa [beq_iff_eq] using this
    have h2 : browserAnchor records r = some b₂.pid := by
      have := hr2.2
      simpa [beq_iff_eq] using this
    rw [h1] at h2
    exact hne (Option.some.inj h2)
  · intro r _ hanchor g hg hmem
    rcases List.mem_map.mp hg with ⟨b, _, rfl⟩
    rw [List.mem_filter] at hmem
    have := hmem.2
    rw [hanchor] at this
    simp at this

/-- Closed witness for the C4 theorem, at the spec's own scenario: pids
100 (Browser), 101 (its Renderer child) and 102 (parent absent from the
snapshot) yield a single group rooted at 100 with members 100 and 101,
and pid 102 belongs to no group. -/
theorem build_groups_members_partition_witness :
    build_groups [browser100, rend101, helper102]
      = [{ root_pid := 100, members := [browser100, rend101] }] ∧
    browserAnchor [browser100, rend101, helper102] helper102 = none ∧
    (∀ g ∈ build_groups [browser100, rend101, helper102], helper102 ∉ g.members) := by
  refine ⟨by decide, by decide, ?_⟩
  exact (build_groups_members_partition [browser100, rend101, helper102]
    (by decide)).2.2 helper102 (by decide) (by decide)

end EdgeUtils
